import Mathlib

/-! A shallow embedding of `ftp.go`, the FTP client of goftp.

Go strings are byte sequences; they are modelled as lists of characters, one
character per byte.  A Go function that can panic (an index or a slice bound
out of range) returns in `Exec`, whose `fault` constructor records the panic;
loops whose termination depends on the environment carry a fuel argument and
report `Fault.outOfFuel` when it is exhausted.
-/

namespace Goftp

/-- A Go `string`: a sequence of bytes. -/
abbrev Str := List Char

/-- Ways in which the execution of a Go function stops without returning. -/
inductive Fault where
  | indexOutOfRange
  | outOfFuel
  deriving DecidableEq, Repr

/-- Outcome of running a Go function: it returns a value, or it stops with a fault. -/
inductive Exec (α : Type) where
  | ok (a : α)
  | fault (f : Fault)
  deriving DecidableEq, Repr

/-- A Go `error` value: `io.EOF`, an error of the transport, or `errors.New(msg)`. -/
inductive GoError where
  | eof
  | net (msg : Str)
  | new (msg : Str)
  deriving DecidableEq, Repr

/-- The method `Error()` of a Go error: its message. -/
def GoError.Error : GoError → Str
  | .eof => "EOF".toList
  | .net msg => msg
  | .new msg => msg

/-- Go `strings.Split(s, sep)` for a separator of one byte: the pieces of `s`
between the occurrences of `sep`; always at least one piece. -/
def split (sep : Char) : Str → List Str
  | [] => [[]]
  | c :: cs =>
    if c = sep then [] :: split sep cs
    else
      match split sep cs with
      | [] => [[c]]
      | h :: t => (c :: h) :: t

/-- Go `strings.HasPrefix(s, p)`. -/
def HasPrefix (s p : Str) : Bool := p.isPrefixOf s

/-- Go slice expression `v[lo:hi]` on a string; panics unless `lo ≤ hi ≤ len(v)`.
The bounds are integers because `len(v)-2` may be negative. -/
def slice (v : Str) (lo hi : Int) : Exec Str :=
  if 0 ≤ lo ∧ lo ≤ hi ∧ hi ≤ (v.length : Int) then
    .ok ((v.drop lo.toNat).take (hi.toNat - lo.toNat))
  else .fault .indexOutOfRange

/-- Go index expression `xs[i]` on a slice of strings; panics when out of range. -/
def index (xs : List Str) (i : Nat) : Exec Str :=
  match xs.get? i with
  | some x => .ok x
  | none => .fault .indexOutOfRange

/-- Body of the `for … range strings.Split(line, ";")` loop of `parseLine`,
threading the three named results. -/
def parseLineLoop : List Str → Str → Str → Str → Exec (Str × Str × Str)
  | [], perm, t, filename => .ok (perm, t, filename)
  | v :: rest, perm, t, filename =>
    let v2 := split '=' v
    match index v2 0 with
    | .fault f => .fault f
    | .ok key =>
      if key = "perm".toList then
        match index v2 1 with
        | .fault f => .fault f
        | .ok x => parseLineLoop rest x t filename
      else if key = "type".toList then
        match index v2 1 with
        | .fault f => .fault f
        | .ok x => parseLineLoop rest perm x filename
      else
        match slice v 1 ((v.length : Int) - 2) with
        | .fault f => .fault f
        | .ok x => parseLineLoop rest perm t x

/-- The function `parseLine` of `ftp.go`: the permission facts, the type and the name of one
listing line. -/
def parseLine (line : Str) : Exec (Str × Str × Str) :=
  parseLineLoop (split ';' line) [] [] []

/-! ## The control connection -/

/-- State of a `bufio.Reader` over a connection.  `buf` holds the bytes already
read from the connection and not yet consumed (`Buffered()` is its length);
`pending` lists what the successive `Read` calls on the connection will deliver;
once they are exhausted the connection reports `fin`. -/
structure Reader where
  buf : Str
  pending : List Str
  fin : GoError
  deriving DecidableEq, Repr

/-- Cuts a buffer after its first line feed: the line (line feed included) and the rest. -/
def cutLine : Str → Option (Str × Str)
  | [] => none
  | c :: cs =>
    if c = '\n' then some ([c], cs)
    else
      match cutLine cs with
      | some (l, r) => some (c :: l, r)
      | none => none

/-- Go `bufio.Reader.ReadString('\n')`: the bytes up to and including the first
line feed, reading from the connection as long as the buffer holds none; when the
connection fails first, the bytes read so far and the error. -/
def readString (fin : GoError) : List Str → Str → Reader × Str × Option GoError
  | [], buf =>
    match cutLine buf with
    | some (line, rest) => (⟨rest, [], fin⟩, line, none)
    | none => (⟨[], [], fin⟩, buf, some fin)
  | c :: cs, buf =>
    match cutLine buf with
    | some (line, rest) => (⟨rest, c :: cs, fin⟩, line, none)
    | none => readString fin cs (buf ++ c)

/-- Method form of `readString`. -/
def Reader.ReadString (r : Reader) : Reader × Str × Option GoError :=
  readString r.fin r.pending r.buf

/-- Number of bytes a reader can still deliver. -/
def Reader.size (r : Reader) : Nat := r.buf.length + r.pending.flatten.length

/-- Result of dialling the passive port: a refusal, or a data connection with the
bytes the server sends on it (as successive reads, then `fin`) and the error, if
any, that writing to it meets. -/
structure DataConn where
  incoming : List Str
  fin : GoError
  writeErr : Option GoError
  tls : Bool
  deriving DecidableEq, Repr

/-- Outcome of one `net.Dial`. -/
inductive DialResult where
  | refused (e : GoError)
  | connected (c : DataConn)
  deriving DecidableEq, Repr

/-- The session `FTP` of `ftp.go` together with the environment it talks to.
`reader` is the buffered reader of the control connection; `writeErr` is the
sticky error of its `bufio.Writer` and `writes` the outcomes of the successive
writes to the connection (all succeed once the list is exhausted); `sent` logs the
command lines written; `tlsconfig` tells whether a TLS configuration is set;
`dials` gives the outcomes of the successive `net.Dial` calls (refused once
exhausted); `openData` counts the data connections dialled and not yet closed. -/
structure FTP where
  reader : Reader
  writeErr : Option GoError
  writes : List (Option GoError)
  sent : List Str
  tlsconfig : Bool
  dials : List DialResult
  openData : Nat
  deriving DecidableEq, Repr

/-- Method `FTP.ReadAndDiscard`: reads and drops the `Buffered()` bytes of the reader;
returns their number (`ReadByte` on a buffered byte cannot fail). -/
def FTP.ReadAndDiscard (ftp : FTP) : FTP × Nat × Option GoError :=
  ({ ftp with reader := { ftp.reader with buf := [] } }, ftp.reader.buf.length, none)

/-- Method `FTP.receiveLine`: one `ReadString` on the control connection. -/
def FTP.receiveLine (ftp : FTP) : FTP × Str × Option GoError :=
  let (r, line, err) := ftp.reader.ReadString
  ({ ftp with reader := r }, line, err)

/-- The `for` loop of `FTP.receive` on a multi-line response.  The result carries
`some err` when the loop is left by `return line, err` and `none` when it is left
by `break`. -/
def receiveLoop (closingCode : Str) : Nat → FTP → Str → Exec (FTP × Str × Option GoError)
  | 0, _, _ => .fault .outOfFuel
  | fuel + 1, ftp, line =>
    let (ftp, str, err) := ftp.receiveLine
    let line := line ++ str
    match err with
    | some e => .ok (ftp, line, some e)
    | none =>
      if str.length < 4 then .ok (ftp, line, none)
      else if str.take 4 = closingCode then .ok (ftp, line, none)
      else receiveLoop closingCode fuel ftp line

/-- Method `FTP.receive`: one response of the server, several lines long when the
fourth byte of its first line is `-`.  Every iteration of the loop consumes at
least one byte of the reader, so its size bounds the number of iterations. -/
def FTP.receive (ftp : FTP) : Exec (FTP × Str × Option GoError) :=
  let (ftp, line, err) := ftp.receiveLine
  match err with
  | some e => .ok (ftp, line, some e)
  | none =>
    if line.length ≥ 4 ∧ line.get? 3 = some '-' then
      let closingCode := line.take 3 ++ " ".toList
      match receiveLoop closingCode (ftp.reader.size + 1) ftp line with
      | .fault f => .fault f
      | .ok (ftp, line, some e) => .ok (ftp, line, some e)
      | .ok (ftp, line, none) => .ok ((ftp.ReadAndDiscard).1, line, none)
    else .ok ((ftp.ReadAndDiscard).1, line, none)

/-- Method `FTP.send`, applied to the formatted command `fmt.Sprintf(command, arguments...)`:
appends CR LF, writes and flushes. -/
def FTP.send (ftp : FTP) (command : Str) : FTP × Option GoError :=
  let command := command ++ "\r\n".toList
  match ftp.writeErr with
  | some e => (ftp, some e)
  | none =>
    match ftp.writes with
    | some e :: rest => ({ ftp with writes := rest, writeErr := some e }, some e)
    | none :: rest => ({ ftp with writes := rest, sent := ftp.sent ++ [command] }, none)
    | [] => ({ ftp with sent := ftp.sent ++ [command] }, none)

/-- Method `FTP.cmd`: sends the (formatted) command and compares the start of the
response with `expects`. -/
def FTP.cmd (ftp : FTP) (expects : Str) (command : Str) : Exec (FTP × Str × Option GoError) :=
  match ftp.send command with
  | (ftp, some e) => .ok (ftp, [], some e)
  | (ftp, none) =>
    match ftp.receive with
    | .fault f => .fault f
    | .ok (ftp, line, some e) => .ok (ftp, line, some e)
    | .ok (ftp, line, none) =>
      if !HasPrefix line expects then .ok (ftp, line, some (.new line))
      else .ok (ftp, line, none)

/-- Method `FTP.Type`: changes the transfer type. -/
def FTP.Type (ftp : FTP) (t : Str) : Exec (FTP × Option GoError) :=
  match ftp.cmd "200".toList ("TYPE ".toList ++ t) with
  | .fault f => .fault f
  | .ok (ftp, _, err) => .ok (ftp, err)

/-- Method `FTP.Login`: `USER`, then `PASS`; an error of `USER` whose message starts
with `230` is cleared before `PASS` is sent. -/
def FTP.Login (ftp : FTP) (username password : Str) : Exec (FTP × Option GoError) :=
  match ftp.cmd "331".toList ("USER ".toList ++ username) with
  | .fault f => .fault f
  | .ok (ftp, _, err) =>
    let pass (ftp : FTP) : Exec (FTP × Option GoError) :=
      match ftp.cmd "230".toList ("PASS ".toList ++ password) with
      | .fault f => .fault f
      | .ok (ftp, _, err) => .ok (ftp, err)
    match err with
    | some e =>
      if HasPrefix e.Error "230".toList then pass ftp
      else .ok (ftp, some e)
    | none => pass ftp

/-! ## Passive mode -/

/-- Outcome of the digit loop of Go `strconv.ParseUint(s, 10, 64)`. -/
inductive UintResult where
  | value (n : Nat)
  | syntaxError
  | rangeError
  deriving DecidableEq, Repr

/-- The digit loop of `strconv.ParseUint` in base 10 with 64 bits: it stops at the
first byte that is not a digit (syntax error) or at the first digit that takes
the value beyond `2^64 - 1` (range error), whichever comes first. -/
def parseUintLoop : Str → Nat → UintResult
  | [], n => .value n
  | c :: cs, n =>
    if ¬ ('0' ≤ c ∧ c ≤ '9') then .syntaxError
    else if n ≥ (2 ^ 64 - 1) / 10 + 1 then .rangeError
    else
      let n1 := n * 10 + (c.toNat - '0'.toNat)
      if n1 > 2 ^ 64 - 1 then .rangeError
      else parseUintLoop cs n1

/-- Go `strconv.Atoi` on a 64-bit platform: the value returned and the error.
A syntax error returns 0; a range error returns the nearest bound of `int64`. -/
def Atoi (s : Str) : Int × Option GoError :=
  let syntaxErr : Int × Option GoError := (0, some (.new "invalid syntax".toList))
  let rangeErr (v : Int) : Int × Option GoError := (v, some (.new "value out of range".toList))
  let neg : Bool := s.head? = some '-'
  let digits : Str := if s.head? = some '+' ∨ s.head? = some '-' then s.drop 1 else s
  if digits = [] then syntaxErr
  else
    match parseUintLoop digits 0 with
    | .syntaxError => syntaxErr
    | .rangeError => if neg then rangeErr (-(2 ^ 63)) else rangeErr (2 ^ 63 - 1)
    | .value un =>
      if ¬ neg ∧ un ≥ 2 ^ 63 then rangeErr (2 ^ 63 - 1)
      else if neg ∧ un > 2 ^ 63 then rangeErr (-(2 ^ 63))
      else if neg then (-(un : Int), none) else ((un : Int), none)

/-- Wrap-around of the Go type `int` (64 bits, two's complement). -/
def wrapInt (x : Int) : Int := (x + 2 ^ 63) % 2 ^ 64 - 2 ^ 63

/-- The longest prefix of `seg` that is followed by `)`: what a greedy `(.*)\)`
captures at the start of `seg`, if it matches there. -/
def lastClose : Str → Option Str
  | [] => none
  | c :: cs =>
    match lastClose cs with
    | some g => some (c :: g)
    | none => if c = ')' then some [] else none

/-- Go `regexp.MustCompile("\\((.*)\\)").FindAllStringSubmatch(line, -1)` read at
`res[0][1]`: the capture group of the first match, `none` when nothing matches.
The match starts at the leftmost `(` that has a `)` later on its line (`.` does not
match a line feed) and, `.*` being greedy, ends at the last `)` of that line. -/
def firstGroup : Str → Option Str
  | [] => none
  | c :: cs =>
    if c = '(' then
      match lastClose (cs.takeWhile (fun x => x ≠ '\n')) with
      | some g => some g
      | none => firstGroup cs
    else firstGroup cs

/-- Go index expression `s[len(s)-k]` on a slice of strings. -/
def indexFromEnd (s : List Str) (k : Nat) : Exec Str :=
  if k ≤ s.length ∧ 0 < k then index s (s.length - k) else .fault .indexOutOfRange

/-- Method `FTP.Pasv`: enables the passive mode and returns the port number. -/
def FTP.Pasv (ftp : FTP) : Exec (FTP × Int × Option GoError) :=
  match ftp.cmd "227".toList "PASV".toList with
  | .fault f => .fault f
  | .ok (ftp, _, some e) => .ok (ftp, 0, some e)
  | .ok (ftp, line, none) =>
    match firstGroup line with
    | none => .fault .indexOutOfRange
    | some g =>
      let s := split ',' g
      match indexFromEnd s 2 with
      | .fault f => .fault f
      | .ok a =>
        match indexFromEnd s 1 with
        | .fault f => .fault f
        | .ok b =>
          let l1 := (Atoi a).1
          let l2 := (Atoi b).1
          .ok (ftp, wrapInt (wrapInt (l1 * 2 ^ 8) + l2), none)

/-- Method `FTP.newConnection`: dials the passive port of the server; the connection is
wrapped in TLS when a configuration is set. -/
def FTP.newConnection (ftp : FTP) (_port : Int) : FTP × Except GoError DataConn :=
  match ftp.dials with
  | [] => (ftp, .error (.net "dial".toList))
  | .refused e :: rest => ({ ftp with dials := rest }, .error e)
  | .connected c :: rest =>
    ({ ftp with dials := rest, openData := ftp.openData + 1 },
      .ok { c with tls := ftp.tlsconfig })

/-- The call `pconn.Close()` on a data connection. -/
def FTP.closeData (ftp : FTP) : FTP := { ftp with openData := ftp.openData - 1 }

/-- The `io.Reader` a caller hands to `Stor`, as `io.Copy` sees it: its bytes and,
when reading it ends in a failure instead of `io.EOF`, the error that `io.Copy`
reports for it (a connection that copies through its own `ReadFrom` wraps the
reader's error in a `*net.OpError`; `err` is the error so wrapped). -/
structure Source where
  data : Str
  err : Option GoError
  deriving DecidableEq, Repr

/-- Go `io.Copy(pconn, r)`: the error it returns, the write error of the
connection when there are bytes to write and writing fails, else the error
reported for the source. -/
def Copy (dst : DataConn) (src : Source) : Option GoError :=
  if src.data ≠ [] then
    match dst.writeErr with
    | some e => some e
    | none => src.err
  else src.err

/-- Method `FTP.Stor`: uploads the bytes of `r` to `path`. -/
def FTP.Stor (ftp : FTP) (path : Str) (r : Source) : Exec (FTP × Option GoError) :=
  match ftp.Type "I".toList with
  | .fault f => .fault f
  | .ok (ftp, some e) => .ok (ftp, some e)
  | .ok (ftp, none) =>
    match ftp.Pasv with
    | .fault f => .fault f
    | .ok (ftp, _, some e) => .ok (ftp, some e)
    | .ok (ftp, port, none) =>
      match ftp.send ("STOR ".toList ++ path) with
      | (ftp, some e) => .ok (ftp, some e)
      | (ftp, none) =>
        match ftp.newConnection port with
        | (ftp, .error e) => .ok (ftp, some e)
        | (ftp, .ok pconn) =>
          match ftp.receive with
          | .fault f => .fault f
          | .ok (ftp, _, some e) => .ok (ftp, some e)
          | .ok (ftp, line, none) =>
            if !HasPrefix line "150".toList then .ok (ftp, some (.new line))
            else
              match Copy pconn r with
              | some e => .ok (ftp, some e)
              | none =>
                let ftp := ftp.closeData
                match ftp.receive with
                | .fault f => .fault f
                | .ok (ftp, _, some e) => .ok (ftp, some e)
                | .ok (ftp, line, none) =>
                  if !HasPrefix line "226".toList then .ok (ftp, some (.new line))
                  else .ok (ftp, none)

/-- Method `FTP.Retr`: hands the data connection of `path` to `retrFn`.  The string it
returns is never assigned. -/
def FTP.Retr (ftp : FTP) (path : Str) (retrFn : DataConn → Option GoError) :
    Exec (FTP × Str × Option GoError) :=
  match ftp.Type "I".toList with
  | .fault f => .fault f
  | .ok (ftp, some e) => .ok (ftp, [], some e)
  | .ok (ftp, none) =>
    match ftp.Pasv with
    | .fault f => .fault f
    | .ok (ftp, _, some e) => .ok (ftp, [], some e)
    | .ok (ftp, port, none) =>
      match ftp.send ("RETR ".toList ++ path) with
      | (ftp, some e) => .ok (ftp, [], some e)
      | (ftp, none) =>
        match ftp.newConnection port with
        | (ftp, .error e) => .ok (ftp, [], some e)
        | (ftp, .ok pconn) =>
          match ftp.receive with
          | .fault f => .fault f
          | .ok (ftp, _, some e) => .ok (ftp, [], some e)
          | .ok (ftp, line, none) =>
            if !HasPrefix line "150".toList then .ok (ftp, [], some (.new line))
            else
              match retrFn pconn with
              | some e => .ok (ftp, [], some e)
              | none =>
                let ftp := ftp.closeData
                match ftp.receive with
                | .fault f => .fault f
                | .ok (ftp, _, some e) => .ok (ftp, [], some e)
                | .ok (ftp, line, none) =>
                  if !HasPrefix line "226".toList then .ok (ftp, [], some (.new line))
                  else .ok (ftp, [], none)

/-- The read loop of `RawPassiveCmd` over the data connection: the lines read,
and the error other than `io.EOF` that stopped the loop, if any.  A last line
without line feed comes with `io.EOF` and is dropped. -/
def readLines : Nat → Reader → List Str → Exec (List Str × Option GoError)
  | 0, _, _ => .fault .outOfFuel
  | fuel + 1, reader, response =>
    let (reader, line, err) := reader.ReadString
    match err with
    | some .eof => .ok (response, none)
    | some e => .ok (response, some e)
    | none => readLines fuel reader (response ++ [line])

/-- Method `FTP.RawPassiveCmd`: sends a command whose answer comes over a data
connection; returns the code and the lines read (a nil slice is the empty list).
As for `send`, `command` is the text after formatting: what `fmt.Sprintf(command)`,
called with no operand, makes of the command, which is the command itself when it
holds no `%`. -/
def FTP.RawPassiveCmd (ftp : FTP) (command : Str) : Exec (FTP × Int × List Str) :=
  match ftp.Pasv with
  | .fault f => .fault f
  | .ok (ftp, _, some _) => .ok (ftp, -1, [])
  | .ok (ftp, port, none) =>
    match ftp.send command with
    | (ftp, some _) => .ok (ftp, -2, [])
    | (ftp, none) =>
      match ftp.newConnection port with
      | (ftp, .error _) => .ok (ftp, -3, [])
      | (ftp, .ok pconn) =>
        match ftp.receive with
        | .fault f => .fault f
        | .ok (ftp, _, some _) => .ok (ftp, -4, [])
        | .ok (ftp, line, none) =>
          match slice line 0 3 with
          | .fault f => .fault f
          | .ok digits =>
            match Atoi digits with
            | (_, some _) => .ok (ftp, -5, [])
            | (code, none) =>
              if code > 299 then .ok (ftp, code, [])
              else
                let reader : Reader := ⟨[], pconn.incoming, pconn.fin⟩
                match readLines (reader.size + 1) reader [] with
                | .fault f => .fault f
                | .ok (_, some _) => .ok (ftp.closeData, -5, [])
                | .ok (response, none) =>
                  let ftp := ftp.closeData
                  match ftp.receive with
                  | .fault f => .fault f
                  | .ok (ftp, _, some _) => .ok (ftp, -6, [])
                  | .ok (ftp, _, none) =>
                    if code > 299 then .ok (ftp, code, [])
                    else .ok (ftp, code, response)

/-! ## The directory walk

`FTP.List` is called by `Walk` and is not part of the sources: the walk takes it
as the parameter `listDir`, the lines of a directory or an error.  The visitor
`walkFn` is a Go closure: it receives the path and may update a state of its own. -/

/-- The `for … range lines` loop of `FTP.Walk`; `walk` stands for the recursive
call `ftp.Walk(path, walkFn, deepLimit...)`.  `deep` is the loop's view of the
local variable of that name. -/
def walkLines {σ : Type} (walk : Str → Option Int → σ → Exec (σ × Option GoError))
    (walkFn : Str → σ → σ × Option GoError) (path : Str) :
    List Str → Int → σ → Exec (σ × Option GoError)
  | [], _, st => .ok (st, none)
  | line :: rest, deep, st =>
    match parseLine line with
    | .fault f => .fault f
    | .ok (_, t, subpath) =>
      if t = "dir".toList then
        if subpath = ".".toList then walkLines walk walkFn path rest deep st
        else if subpath = "..".toList then walkLines walk walkFn path rest deep st
        else if deep > 0 then
          let deep := deep - 1
          match walk (path ++ subpath ++ "/".toList) (some deep) st with
          | .fault f => .fault f
          | .ok (st, some e) => .ok (st, some e)
          | .ok (st, none) => walkLines walk walkFn path rest deep st
        else if deep < 0 then
          match walk (path ++ subpath ++ "/".toList) none st with
          | .fault f => .fault f
          | .ok (st, some e) => .ok (st, some e)
          | .ok (st, none) => walkLines walk walkFn path rest deep st
        else walkLines walk walkFn path rest deep st
      else if t = "file".toList then
        match walkFn (path ++ subpath) st with
        | (st, some e) => .ok (st, some e)
        | (st, none) => walkLines walk walkFn path rest deep st
      else walkLines walk walkFn path rest deep st

/-- Method `FTP.Walk`: walks through `path` and calls `walkFn` for each file; the
optional `deepLimit` bounds the recursion.  The fuel bounds the depth of the
recursion, which the server's listings alone determine. -/
def Walk {σ : Type} (listDir : Str → Except GoError (List Str))
    (walkFn : Str → σ → σ × Option GoError) :
    Nat → Str → Option Int → σ → Exec (σ × Option GoError)
  | 0, _, _, _ => .fault .outOfFuel
  | fuel + 1, path, deepLimit, st =>
    let deep : Int :=
      match deepLimit with
      | some d => d
      | none => -1
    match listDir path with
    | .error e => .ok (st, some e)
    | .ok lines => walkLines (Walk listDir walkFn fuel) walkFn path lines deep st

/-- A visitor that never fails and records the paths it is called with. -/
def record (path : Str) (seen : List Str) : List Str × Option GoError := (seen ++ [path], none)

/-- The entries of a directory, in the order of its listing: files,
subdirectories with their own entries, and entries of any other type. -/
inductive Tree where
  | nil
  | file (name : Str) (rest : Tree)
  | dir (name : Str) (kids : Tree) (rest : Tree)
  | other (t : Str) (name : Str) (rest : Tree)
  deriving DecidableEq, Repr

/-- The files of a tree rooted at `path`, each as directory path plus name, in
depth-first pre-order: the files of a subdirectory come where its entry stands.
Directories named `.` and `..` are not entered. -/
def files : Str → Tree → List Str
  | _, .nil => []
  | path, .file name rest => (path ++ name) :: files path rest
  | path, .dir name kids rest =>
    (if name = ".".toList ∨ name = "..".toList then []
      else files (path ++ name ++ "/".toList) kids) ++ files path rest
  | path, .other _ _ rest => files path rest

/-- The 3-digit status code of a response: its first three bytes. -/
def statusCode (line : Str) : Str := line.take 3

/-- A session whose control connection will deliver `chunks` and then end, and
whose passive port answers the successive dials as `dials` tells. -/
def session (chunks : List Str) (dials : List DialResult) : FTP :=
  { reader := ⟨[], chunks, .eof⟩, writeErr := none, writes := [], sent := [],
    tlsconfig := false, dials := dials, openData := 0 }

/-- A server with the directories `/`, `/a/` and `/b/`: the root lists the two
subdirectories, each of which holds one file. -/
def twoDirs (path : Str) : Except GoError (List Str) :=
  if path = "/".toList then .ok ["perm=el;type=dir; a\r\n".toList, "perm=el;type=dir; b\r\n".toList]
  else if path = "/a/".toList then .ok ["perm=r;type=file; x\r\n".toList]
  else if path = "/b/".toList then .ok ["perm=r;type=file; y\r\n".toList]
  else .error (.new "550 No such directory\r\n".toList)

/-- The tree that `twoDirs` serves. -/
def twoDirsTree : Tree :=
  .dir "a".toList (.file "x".toList .nil) (.dir "b".toList (.file "y".toList .nil) .nil)

/-- The result an execution returns, without the final state of the session. -/
def Exec.result {α β : Type} : Exec (α × β) → Exec β
  | .ok (_, b) => .ok b
  | .fault f => .fault f

/-- The number of data connections left open by an execution. -/
def openAfter {β : Type} : Exec (FTP × β) → Exec Nat
  | .ok (ftp, _) => .ok ftp.openData
  | .fault f => .fault f

/-- The text of the facts `k1=v1;…;kn=vn;` of a listing line. -/
def renderFacts : List (Str × Str) → Str
  | [] => []
  | (k, v) :: rest => (k ++ '=' :: v) ++ ';' :: renderFacts rest

/-- The listing line `k1=v1;…;kn=vn; NAME\r\n`. -/
def listingLine (facts : List (Str × Str)) (name : Str) : Str :=
  renderFacts facts ++ (' ' :: (name ++ "\r\n".toList))

/-- The value of the last fact with the given key. -/
def lastValue (key : Str) : List (Str × Str) → Option Str
  | [] => none
  | (k, v) :: rest =>
    match lastValue key rest with
    | some x => some x
    | none => if k = key then some v else none

/-- A fact `k=v` that `parseLine` reads as the listing format intends: no
separator inside the key, no `;` inside the value, no `=` inside the value of a
`perm` or `type` fact, and at least three bytes in any other fact. -/
def FactOk (f : Str × Str) : Prop :=
  ';' ∉ f.1 ∧ '=' ∉ f.1 ∧ ';' ∉ f.2 ∧
    (if f.1 = "perm".toList ∨ f.1 = "type".toList then '=' ∉ f.2
      else 2 ≤ f.1.length + f.2.length)

instance (f : Str × Str) : Decidable (FactOk f) := by
  unfold FactOk; infer_instance

/-- The bytes a reader has still to deliver, buffered or not. -/
def Reader.stream (r : Reader) : Str := r.buf ++ r.pending.flatten

/-- A line: bytes that end in a line feed and hold no other line feed. -/
def isLine : Str → Bool
  | [] => false
  | [c] => c = '\n'
  | c :: cs => c ≠ '\n' && isLine cs

/-- Whether a byte is a decimal digit. -/
def isDigit (c : Char) : Bool := '0' ≤ c ∧ c ≤ '9'

/-- The number a string of decimal digits writes. -/
def numberValue (ds : Str) : Nat :=
  ds.foldl (fun n c => n * 10 + (c.toNat - '0'.toNat)) 0

/-- A decimal number in 0..255: digits, at least one, of value at most 255. -/
def isByte (ds : Str) : Bool := ds ≠ [] && ds.all isDigit && numberValue ds ≤ 255

/-- The text `h1,h2,h3,h4,p1,p2` of a passive-mode tuple. -/
def tuple (h1 h2 h3 h4 p1 p2 : Str) : Str :=
  ((h1 ++ ',' :: h2 ++ ',' :: h3 ++ ',' :: h4) ++ ',' :: p1) ++ ',' :: p2

/-! # Theorems -/

/-! ## Splitting -/

theorem split_ne_nil (sep : Char) (s : Str) : split sep s ≠ [] := by
  induction s with
  | nil => simp [split]
  | cons c cs ih =>
    unfold split
    split
    · simp
    · split <;> simp

theorem split_of_not_mem (sep : Char) (s : Str) (h : sep ∉ s) : split sep s = [s] := by
  induction s with
  | nil => simp [split]
  | cons c cs ih =>
    simp only [List.mem_cons, not_or] at h
    have hc : c ≠ sep := fun e => h.1 e.symm
    simp [split, hc, ih h.2]

theorem split_append_sep (sep : Char) (a rest : Str) (h : sep ∉ a) :
    split sep (a ++ sep :: rest) = a :: split sep rest := by
  induction a with
  | nil => simp [split]
  | cons c cs ih =>
    simp only [List.mem_cons, not_or] at h
    have hc : c ≠ sep := fun e => h.1 e.symm
    simp [split, hc, ih h.2]

theorem split_head_cons (sep c : Char) (cs : Str) (hc : c ≠ sep) :
    ∃ h t, split sep (c :: cs) = (c :: h) :: t := by
  unfold split
  simp only [hc, if_false]
  split
  · exact ⟨[], [], rfl⟩
  · exact ⟨_, _, rfl⟩

theorem split_renderFacts (facts : List (Str × Str)) (tail : Str)
    (h : ∀ f ∈ facts, FactOk f) :
    split ';' (renderFacts facts ++ tail)
      = facts.map (fun f => f.1 ++ '=' :: f.2) ++ split ';' tail := by
  induction facts with
  | nil => simp [renderFacts]
  | cons f rest ih =>
    obtain ⟨k, v⟩ := f
    have hf := h (k, v) (List.mem_cons_self _ _)
    have hkv : ';' ∉ k ++ '=' :: v := by
      simp only [List.mem_append, List.mem_cons, not_or]
      exact ⟨hf.1, by decide, hf.2.2.1⟩
    have e : renderFacts ((k, v) :: rest) ++ tail
        = (k ++ '=' :: v) ++ ';' :: (renderFacts rest ++ tail) := by
      simp [renderFacts]
    rw [e, split_append_sep _ _ _ hkv, ih (fun f hf => h f (List.mem_cons_of_mem _ hf))]
    simp

/-! ## `parseLine` -/

theorem slice_strip (c : Char) (name : Str) (x y : Char) :
    slice (c :: name ++ [x, y]) 1 (((c :: name ++ [x, y]).length : Int) - 2) = .ok name := by
  unfold slice
  have h1 : ((c :: name ++ [x, y]).length : Int) - 2 = (name.length : Int) + 1 := by
    have : (c :: name ++ [x, y]).length = name.length + 3 := by simp
    rw [this]; push_cast; omega
  rw [h1]
  have h2 : (0 : Int) ≤ 1 ∧ (1 : Int) ≤ (name.length : Int) + 1
      ∧ (name.length : Int) + 1 ≤ ((c :: name ++ [x, y]).length : Int) := by
    simp
  rw [if_pos h2]
  have h3 : ((name.length : Int) + 1).toNat - (1 : Int).toNat = name.length := by
    omega
  rw [h3]
  simp

theorem slice_defined (v : Str) (h : 3 ≤ v.length) :
    ∃ x, slice v 1 ((v.length : Int) - 2) = .ok x := by
  unfold slice
  have h2 : (0 : Int) ≤ 1 ∧ (1 : Int) ≤ (v.length : Int) - 2
      ∧ (v.length : Int) - 2 ≤ (v.length : Int) := by
    omega
  rw [if_pos h2]
  exact ⟨_, rfl⟩

theorem parseLineLoop_cons (v : Str) (rest : List Str) (perm t filename : Str) :
    parseLineLoop (v :: rest) perm t filename =
      match index (split '=' v) 0 with
      | .fault f => .fault f
      | .ok key =>
        if key = "perm".toList then
          match index (split '=' v) 1 with
          | .fault f => .fault f
          | .ok x => parseLineLoop rest x t filename
        else if key = "type".toList then
          match index (split '=' v) 1 with
          | .fault f => .fault f
          | .ok x => parseLineLoop rest perm x filename
        else
          match slice v 1 ((v.length : Int) - 2) with
          | .fault f => .fault f
          | .ok x => parseLineLoop rest perm t x := rfl

theorem parseLineLoop_name (name perm t filename : Str) :
    parseLineLoop [' ' :: (name ++ "\r\n".toList)] perm t filename = .ok (perm, t, name) := by
  obtain ⟨h, tl, e⟩ := split_head_cons '=' ' ' (name ++ "\r\n".toList) (by decide)
  have hs := slice_strip ' ' name '\r' '\n'
  have e2 : "\r\n".toList = ['\r', '\n'] := rfl
  rw [e2] at e ⊢
  have hp : (' ' :: h) ≠ "perm".toList := by
    intro c; exact absurd (List.head_eq_of_cons_eq c) (by decide)
  have ht : (' ' :: h) ≠ "type".toList := by
    intro c; exact absurd (List.head_eq_of_cons_eq c) (by decide)
  rw [parseLineLoop_cons, e]
  simp only [index, List.get?, hp, ht, if_false]
  rw [show ' ' :: (name ++ ['\r', '\n']) = ' ' :: name ++ ['\r', '\n'] from rfl, hs]
  rfl

theorem getD_lastValue_hit (key v d : Str) (rest : List (Str × Str)) :
    (lastValue key ((key, v) :: rest)).getD d = (lastValue key rest).getD v := by
  simp only [lastValue]
  cases lastValue key rest <;> simp

theorem lastValue_miss (key k v : Str) (rest : List (Str × Str)) (h : k ≠ key) :
    lastValue key ((k, v) :: rest) = lastValue key rest := by
  simp only [lastValue, h, if_false]
  cases lastValue key rest <;> rfl

theorem parseLineLoop_facts (name : Str) (facts : List (Str × Str))
    (h : ∀ f ∈ facts, FactOk f) (perm t : Str) :
    ∀ filename, ∃ filename1,
      parseLineLoop (facts.map (fun f => f.1 ++ '=' :: f.2) ++ [' ' :: (name ++ "\r\n".toList)])
          perm t filename
        = parseLineLoop [' ' :: (name ++ "\r\n".toList)]
            ((lastValue "perm".toList facts).getD perm)
            ((lastValue "type".toList facts).getD t) filename1 := by
  induction facts generalizing perm t with
  | nil => intro filename; exact ⟨filename, by simp [lastValue]⟩
  | cons f rest ih =>
    intro filename
    obtain ⟨k, v⟩ := f
    have hf := h (k, v) (List.mem_cons_self _ _)
    have hrest : ∀ f ∈ rest, FactOk f := fun f hf => h f (List.mem_cons_of_mem _ hf)
    obtain ⟨hk1, hk2, hv1, hv2⟩ := hf
    have hsplit : split '=' (k ++ '=' :: v) = k :: split '=' v :=
      split_append_sep '=' k v hk2
    have hne : ¬ ("type".toList = "perm".toList) := by decide
    rw [List.map_cons, List.cons_append, parseLineLoop_cons, hsplit]
    by_cases hp : k = "perm".toList
    · have hv : '=' ∉ v := by
        have h2 := hv2
        dsimp only at h2
        rw [if_pos (Or.inl hp)] at h2
        exact h2
      rw [split_of_not_mem _ _ hv]
      simp only [index, List.get?, hp, if_true]
      obtain ⟨fn, e⟩ := ih hrest v t filename
      refine ⟨fn, ?_⟩
      rw [e, getD_lastValue_hit, lastValue_miss _ _ _ _ (Ne.symm hne)]
    · by_cases ht : k = "type".toList
      · have hv : '=' ∉ v := by
          have h2 := hv2
          dsimp only at h2
          rw [if_pos (Or.inr ht)] at h2
          exact h2
        rw [split_of_not_mem _ _ hv]
        simp only [index, List.get?, ht, hne, if_true, if_false]
        obtain ⟨fn, e⟩ := ih hrest perm v filename
        refine ⟨fn, ?_⟩
        rw [e, getD_lastValue_hit, lastValue_miss _ _ _ _ hne]
      · have hlen : 3 ≤ (k ++ '=' :: v).length := by
          have hc : ¬ (k = "perm".toList ∨ k = "type".toList) := by
            rintro (c | c)
            · exact hp c
            · exact ht c
          have : 2 ≤ k.length + v.length := by
            have h2 := hv2
            dsimp only at h2
            rw [if_neg hc] at h2
            exact h2
          simp; omega
        obtain ⟨x, hx⟩ := slice_defined _ hlen
        simp only [index, List.get?, hp, ht, if_false, hx]
        obtain ⟨fn, e⟩ := ih hrest perm t x
        refine ⟨fn, ?_⟩
        rw [e, lastValue_miss _ _ _ _ hp, lastValue_miss _ _ _ _ ht]

/-- C7, at the failing input: the line `perm=r;a=;type=file; x\r\n` has the form
`k1=v1;…;kn=vn; NAME\r\n` with a `perm` and a `type` fact; on its fact `a=`, two
bytes long, the slice `v[1:len(v)-2]` is out of range and `parseLine` stops,
where the claim has it return `r`, `file` and `x`. -/
theorem parseLine_faults_on_short_fact :
    listingLine [("perm".toList, "r".toList), ("a".toList, []), ("type".toList, "file".toList)]
        "x".toList = "perm=r;a=;type=file; x\r\n".toList ∧
    parseLine "perm=r;a=;type=file; x\r\n".toList = .fault .indexOutOfRange ∧
    parseLine "perm=r;a=;type=file; x\r\n".toList
      ≠ .ok ("r".toList, "file".toList, "x".toList) := by
  decide

/-- The value of a fact is cut at its second `=`: in the line
`perm=fle;type=OS.unix=symlink; lnk\r\n` the value of the type fact is
`OS.unix=symlink`, and `parseLine` returns the type `OS.unix`. -/
theorem parseLine_cuts_value_at_equals :
    listingLine [("perm".toList, "fle".toList), ("type".toList, "OS.unix=symlink".toList)]
        "lnk".toList = "perm=fle;type=OS.unix=symlink; lnk\r\n".toList ∧
    parseLine "perm=fle;type=OS.unix=symlink; lnk\r\n".toList
      = .ok ("fle".toList, "OS.unix".toList, "lnk".toList) ∧
    parseLine "perm=fle;type=OS.unix=symlink; lnk\r\n".toList
      ≠ .ok ("fle".toList, "OS.unix=symlink".toList, "lnk".toList) := by
  decide

/-- Where `parseLine` does read a listing line `k1=v1;…;kn=vn; NAME\r\n` as the
format intends: when every fact is `FactOk` and the name holds no `;`, it returns
the value of the last `perm` fact, the value of the last `type` fact and `NAME`. -/
theorem parseLine_listingLine (facts : List (Str × Str)) (name perm t : Str)
    (hfacts : ∀ f ∈ facts, FactOk f) (hname : ';' ∉ name)
    (hperm : lastValue "perm".toList facts = some perm)
    (htype : lastValue "type".toList facts = some t) :
    parseLine (listingLine facts name) = .ok (perm, t, name) := by
  have htail : ';' ∉ ' ' :: (name ++ "\r\n".toList) := by
    have e2 : "\r\n".toList = ['\r', '\n'] := rfl
    rw [e2]
    simp only [List.mem_cons, List.mem_append, not_or]
    refine ⟨by decide, hname, by decide, by decide, ?_⟩
    simp
  unfold parseLine listingLine
  rw [split_renderFacts facts _ hfacts, split_of_not_mem _ _ htail]
  obtain ⟨fn, e⟩ := parseLineLoop_facts name facts hfacts [] [] []
  rw [e, parseLineLoop_name, hperm, htype]
  rfl

/-- The example of the specification, as an instance of `parseLine_listingLine`. -/
theorem parseLine_listingLine_witness :
    parseLine (listingLine [("perm".toList, "fle".toList), ("type".toList, "file".toList)]
      "report.txt".toList) = .ok ("fle".toList, "file".toList, "report.txt".toList) :=
  parseLine_listingLine [("perm".toList, "fle".toList), ("type".toList, "file".toList)]
    "report.txt".toList "fle".toList "file".toList (by decide) (by decide) (by decide) (by decide)

/-! ## `cmd` -/

theorem HasPrefix_iff_take (s p : Str) : HasPrefix s p = true ↔ s.take p.length = p := by
  unfold HasPrefix
  rw [List.isPrefixOf_iff_prefix, List.prefix_iff_eq_take]
  exact eq_comm

/-- C1: when `send` and `receive` succeed, `cmd` returns no error exactly when the
status code of the response, its first three bytes, is the expected 3-digit code;
the error it returns otherwise has the raw response as its message. -/
theorem cmd_checks_code (ftp ftp1 ftp2 : FTP) (expects command line : Str)
    (hlen : expects.length = 3)
    (hsend : ftp.send command = (ftp1, none))
    (hrecv : ftp1.receive = .ok (ftp2, line, none)) :
    ∃ err, ftp.cmd expects command = .ok (ftp2, line, err)
      ∧ (err = none ↔ statusCode line = expects)
      ∧ ∀ e, err = some e → e.Error = line := by
  have hiff := HasPrefix_iff_take line expects
  rw [hlen] at hiff
  unfold FTP.cmd statusCode
  rw [hsend]
  simp only [hrecv]
  cases hp : HasPrefix line expects
  · refine ⟨some (.new line), by simp, ?_, ?_⟩
    · constructor
      · intro h; cases h
      · intro h; rw [hiff.mpr h] at hp; cases hp
    · intro e he
      cases he
      rfl
  · refine ⟨none, by simp, ?_, ?_⟩
    · exact ⟨fun _ => hiff.mp hp, fun _ => rfl⟩
    · intro e he; cases he

/-- A response `550 …` to a command that expects `250`, as an instance of
`cmd_checks_code`. -/
theorem cmd_checks_code_witness :
    ∃ err, (session ["550 Denied\r\n".toList] []).cmd "250".toList "CWD /x".toList
        = .ok ({ session [] [] with sent := ["CWD /x\r\n".toList] }, "550 Denied\r\n".toList, err)
      ∧ (err = none ↔ statusCode "550 Denied\r\n".toList = "250".toList)
      ∧ ∀ e, err = some e → e.Error = "550 Denied\r\n".toList :=
  cmd_checks_code (session ["550 Denied\r\n".toList] [])
    { session ["550 Denied\r\n".toList] [] with sent := ["CWD /x\r\n".toList] }
    { session [] [] with sent := ["CWD /x\r\n".toList] }
    "250".toList "CWD /x".toList "550 Denied\r\n".toList (by decide) (by decide) (by decide)

/-! ## `receive` -/

theorem cutLine_isLine (l rest : Str) (h : isLine l = true) :
    cutLine (l ++ rest) = some (l, rest) := by
  induction l with
  | nil => simp [isLine] at h
  | cons c cs ih =>
    cases cs with
    | nil =>
      have hc : c = '\n' := by simpa [isLine] using h
      simp [cutLine, hc]
    | cons d ds =>
      have h2 : c ≠ '\n' ∧ isLine (d :: ds) = true := by simpa [isLine] using h
      have e : (c :: d :: ds) ++ rest = c :: ((d :: ds) ++ rest) := rfl
      rw [e, cutLine, if_neg h2.1, ih h2.2]

theorem cutLine_append (buf x l r : Str) (h : cutLine buf = some (l, r)) :
    cutLine (buf ++ x) = some (l, r ++ x) := by
  induction buf generalizing l r with
  | nil => simp [cutLine] at h
  | cons c cs ih =>
    rw [List.cons_append, cutLine]
    rw [cutLine] at h
    by_cases hc : c = '\n'
    · rw [if_pos hc] at h ⊢
      cases h
      rfl
    · rw [if_neg hc] at h ⊢
      cases hcs : cutLine cs with
      | none => rw [hcs] at h; cases h
      | some p =>
        obtain ⟨l1, r1⟩ := p
        rw [hcs] at h
        simp only [Option.some.injEq, Prod.mk.injEq] at h
        rw [ih l1 r1 hcs, ← h.1, ← h.2]

theorem readString_line (fin : GoError) (pending : List Str) (buf l rest : Str)
    (h : cutLine (buf ++ pending.flatten) = some (l, rest)) :
    ∃ buf1 pending1, readString fin pending buf = (⟨buf1, pending1, fin⟩, l, none)
      ∧ buf1 ++ pending1.flatten = rest := by
  induction pending generalizing buf with
  | nil =>
    rw [List.flatten_nil, List.append_nil] at h
    exact ⟨rest, [], by simp [readString, h], by simp⟩
  | cons c cs ih =>
    cases hb : cutLine buf with
    | some p =>
      obtain ⟨l1, r1⟩ := p
      rw [cutLine_append buf _ l1 r1 hb] at h
      cases h
      exact ⟨r1, c :: cs, by simp [readString, hb], rfl⟩
    | none =>
      have e : buf ++ (c :: cs).flatten = (buf ++ c) ++ cs.flatten := by simp
      rw [e] at h
      obtain ⟨b1, p1, h1, h2⟩ := ih (buf ++ c) h
      exact ⟨b1, p1, by simp [readString, hb, h1], h2⟩

theorem receiveLine_line (ftp : FTP) (l rest : Str) (hl : isLine l = true)
    (h : ftp.reader.stream = l ++ rest) :
    ∃ ftp1, ftp.receiveLine = (ftp1, l, none) ∧ ftp1.reader.stream = rest := by
  unfold Reader.stream at h
  have hc := cutLine_isLine l rest hl
  rw [← h] at hc
  obtain ⟨b1, p1, h1, h2⟩ := readString_line ftp.reader.fin _ _ _ _ hc
  refine ⟨{ ftp with reader := ⟨b1, p1, ftp.reader.fin⟩ }, ?_, h2⟩
  simp [FTP.receiveLine, Reader.ReadString, h1]

theorem receiveLoop_lines (closingCode last rest : Str) (middle : List Str)
    (hlast : isLine last = true)
    (hend : last.length < 4 ∨ last.take 4 = closingCode) :
    ∀ (fuel : Nat) (ftp : FTP) (acc : Str),
      (∀ m ∈ middle, isLine m = true ∧ 4 ≤ m.length ∧ m.take 4 ≠ closingCode) →
      ftp.reader.stream = middle.flatten ++ last ++ rest →
      middle.length < fuel →
      ∃ ftp1, receiveLoop closingCode fuel ftp acc = .ok (ftp1, acc ++ middle.flatten ++ last, none)
        ∧ ftp1.reader.stream = rest := by
  induction middle with
  | nil =>
    intro fuel ftp acc _ hs hf
    obtain ⟨n, rfl⟩ : ∃ n, fuel = n + 1 := ⟨fuel - 1, by omega⟩
    rw [List.flatten_nil, List.nil_append] at hs
    obtain ⟨ftp1, h1, h2⟩ := receiveLine_line ftp last rest hlast hs
    refine ⟨ftp1, ?_, h2⟩
    simp only [receiveLoop, h1, List.flatten_nil, List.append_nil]
    rcases hend with hshort | hcode
    · simp [hshort]
    · simp [hcode]
  | cons m ms ih =>
    intro fuel ftp acc hm hs hf
    obtain ⟨n, rfl⟩ : ∃ n, fuel = n + 1 := ⟨fuel - 1, by omega⟩
    obtain ⟨hm1, hm2, hm3⟩ := hm m (List.mem_cons_self _ _)
    have hs1 : ftp.reader.stream = m ++ (ms.flatten ++ last ++ rest) := by
      rw [hs]; simp
    obtain ⟨ftp1, h1, h2⟩ := receiveLine_line ftp m _ hm1 hs1
    obtain ⟨ftp2, h3, h4⟩ := ih n ftp1 (acc ++ m)
      (fun x hx => hm x (List.mem_cons_of_mem _ hx)) h2 (by simpa using hf)
    refine ⟨ftp2, ?_, h4⟩
    simp only [receiveLoop, h1]
    rw [if_neg (by omega), if_neg hm3, h3]
    simp

theorem length_le_flatten (ls : List Str) (h : ∀ l ∈ ls, 4 ≤ l.length) :
    ls.length ≤ ls.flatten.length := by
  induction ls with
  | nil => simp
  | cons l ls ih =>
    have h1 := h l (List.mem_cons_self _ _)
    have h2 := ih (fun x hx => h x (List.mem_cons_of_mem _ hx))
    simp only [List.length_cons, List.flatten_cons, List.length_append]
    omega

theorem isLine_length_pos (l : Str) (h : isLine l = true) : 0 < l.length := by
  cases l with
  | nil => simp [isLine] at h
  | cons c cs => simp

theorem cutLine_some (buf l r : Str) (h : cutLine buf = some (l, r)) :
    buf = l ++ r ∧ 0 < l.length := by
  induction buf generalizing l r with
  | nil => simp [cutLine] at h
  | cons c cs ih =>
    rw [cutLine] at h
    by_cases hc : c = '\n'
    · rw [if_pos hc] at h
      simp only [Option.some.injEq, Prod.mk.injEq] at h
      rw [← h.1, ← h.2]
      simp
    · rw [if_neg hc] at h
      cases hcs : cutLine cs with
      | none => rw [hcs] at h; cases h
      | some p =>
        obtain ⟨l1, r1⟩ := p
        rw [hcs] at h
        simp only [Option.some.injEq, Prod.mk.injEq] at h
        rw [← h.1, ← h.2, (ih l1 r1 hcs).1]
        simp

theorem readString_consumes (fin : GoError) (pending : List Str) (buf line : Str) (r : Reader)
    (h : readString fin pending buf = (r, line, none)) :
    r.size + line.length = buf.length + pending.flatten.length ∧ 0 < line.length := by
  induction pending generalizing buf with
  | nil =>
    rw [readString] at h
    cases hb : cutLine buf with
    | none => rw [hb] at h; simp at h
    | some p =>
      obtain ⟨l1, r1⟩ := p
      rw [hb] at h
      simp only [Prod.mk.injEq, and_true] at h
      obtain ⟨e, hpos⟩ := cutLine_some buf l1 r1 hb
      rw [← h.1, ← h.2, e]
      simp [Reader.size, hpos]
      omega
  | cons c cs ih =>
    rw [readString] at h
    cases hb : cutLine buf with
    | none =>
      rw [hb] at h
      have := ih (buf ++ c) h
      simp only [List.length_append, List.flatten_cons] at this ⊢
      omega
    | some p =>
      obtain ⟨l1, r1⟩ := p
      rw [hb] at h
      simp only [Prod.mk.injEq, and_true] at h
      obtain ⟨e, hpos⟩ := cutLine_some buf l1 r1 hb
      rw [← h.1, ← h.2, e]
      simp [Reader.size, hpos]
      omega

/-- The loop of `receive` never runs out of fuel when given more fuel than the
reader has bytes. -/
theorem receiveLoop_returns (closingCode : Str) :
    ∀ (fuel : Nat) (ftp : FTP) (acc : Str), ftp.reader.size < fuel →
      ∃ x, receiveLoop closingCode fuel ftp acc = .ok x := by
  intro fuel
  induction fuel with
  | zero => intro ftp acc h; omega
  | succ n ih =>
    intro ftp acc h
    rw [receiveLoop]
    cases hr : readString ftp.reader.fin ftp.reader.pending ftp.reader.buf with
    | mk r rest =>
      obtain ⟨str, err⟩ := rest
      simp only [FTP.receiveLine, Reader.ReadString, hr]
      cases err with
      | some e => exact ⟨_, rfl⟩
      | none =>
        simp only []
        by_cases hshort : str.length < 4
        · rw [if_pos hshort]; exact ⟨_, rfl⟩
        · rw [if_neg hshort]
          by_cases hcode : str.take 4 = closingCode
          · rw [if_pos hcode]; exact ⟨_, rfl⟩
          · rw [if_neg hcode]
            have hsz := (readString_consumes _ _ _ _ _ hr).1
            apply ih
            simp only [Reader.size] at h hsz ⊢
            omega

/-- The method `receive` always returns: its fuel is never exhausted. -/
theorem receive_returns (ftp : FTP) : ∃ x, ftp.receive = .ok x := by
  unfold FTP.receive
  cases hr : ftp.receiveLine with
  | mk ftp1 rest =>
    obtain ⟨line, err⟩ := rest
    cases err with
    | some e => exact ⟨_, rfl⟩
    | none =>
      simp only []
      split
      · obtain ⟨x, hx⟩ := receiveLoop_returns (line.take 3 ++ " ".toList)
          (ftp1.reader.size + 1) ftp1 line (Nat.lt_succ_self _)
        obtain ⟨ftp2, line2, err2⟩ := x
        simp only [hx]
        cases err2 <;> exact ⟨_, rfl⟩
      · exact ⟨_, rfl⟩

/-- The read loop of `RawPassiveCmd` never runs out of fuel when given more fuel
than the data connection has bytes. -/
theorem readLines_returns :
    ∀ (fuel : Nat) (reader : Reader) (acc : List Str), reader.size < fuel →
      ∃ x, readLines fuel reader acc = .ok x := by
  intro fuel
  induction fuel with
  | zero => intro reader acc h; omega
  | succ n ih =>
    intro reader acc h
    rw [readLines]
    cases hr : readString reader.fin reader.pending reader.buf with
    | mk r rest =>
      obtain ⟨str, err⟩ := rest
      simp only [Reader.ReadString, hr]
      cases err with
      | some e => cases e <;> exact ⟨_, rfl⟩
      | none =>
        have hsz := readString_consumes _ _ _ _ _ hr
        apply ih
        simp only [Reader.size] at h hsz ⊢
        omega

/-- After a response read without error nothing is left in the buffer of the
reader: `receive` ends with `ReadAndDiscard`. -/
theorem receive_leaves_buffer_empty (ftp ftp1 : FTP) (line : Str)
    (h : ftp.receive = .ok (ftp1, line, none)) : ftp1.reader.buf = [] := by
  unfold FTP.receive at h
  cases hr : ftp.receiveLine with
  | mk ftp2 rest =>
    obtain ⟨l, err⟩ := rest
    rw [hr] at h
    cases err with
    | some e => simp at h
    | none =>
      simp only [] at h
      split at h
      · cases hl : receiveLoop (l.take 3 ++ " ".toList) (ftp2.reader.size + 1) ftp2 l with
        | fault f => rw [hl] at h; simp at h
        | ok x =>
          obtain ⟨ftp3, l3, err3⟩ := x
          rw [hl] at h
          cases err3 with
          | some e => simp at h
          | none =>
            simp only [Exec.ok.injEq, Prod.mk.injEq, and_true] at h
            rw [← h.1]
            rfl
      · simp only [Exec.ok.injEq, Prod.mk.injEq, and_true] at h
        rw [← h.1]
        rfl

/-- The counterexample to C2: after `211-Features:` the empty line `\r\n` ends the
response, before the line `211 End` is read. -/
theorem receive_stops_at_short_line :
    (session ["211-Features:\r\n".toList, "\r\n".toList, "211 End\r\n".toList] []).receive.result
        = .ok ("211-Features:\r\n\r\n".toList, none) ∧
    (session ["211-Features:\r\n".toList, "\r\n".toList, "211 End\r\n".toList] []).receive.result
        ≠ .ok ("211-Features:\r\n".toList ++ "\r\n".toList ++ "211 End\r\n".toList, none) := by
  decide

/-- C2, amended: when the incoming lines are a first line with `-` as fourth
byte, then lines that do not end the response (four bytes or more, not starting
with the code and a space), then the first line that is shorter than four bytes
or starts with the first line's code and a space, `receive` consumes the lines up
to and including that one (what is left to read is a tail of what follows it) and
returns, with no error, the concatenation in order of exactly those lines. -/
theorem receive_multiline (ftp : FTP) (first last rest : Str) (middle : List Str)
    (hstream : ftp.reader.stream = first ++ middle.flatten ++ last ++ rest)
    (hfirst : isLine first = true) (hdash : first.get? 3 = some '-')
    (hmiddle : ∀ m ∈ middle, isLine m = true ∧ 4 ≤ m.length
      ∧ m.take 4 ≠ statusCode first ++ " ".toList)
    (hlast : isLine last = true)
    (hend : last.length < 4 ∨ last.take 4 = statusCode first ++ " ".toList) :
    ∃ ftp1 dropped, ftp.receive = .ok (ftp1, first ++ middle.flatten ++ last, none)
      ∧ rest = dropped ++ ftp1.reader.stream := by
  have hs0 : ftp.reader.stream = first ++ (middle.flatten ++ last ++ rest) := by
    rw [hstream]; simp
  obtain ⟨ftp1, h1, h2⟩ := receiveLine_line ftp first _ hfirst hs0
  have hlen : first.length ≥ 4 := by
    by_contra hc
    rw [List.get?_eq_none.mpr (by omega)] at hdash
    cases hdash
  have hfuel : middle.length < ftp1.reader.size + 1 := by
    have hsz : ftp1.reader.size = ftp1.reader.stream.length := by
      simp [Reader.size, Reader.stream]
    have := length_le_flatten middle (fun m hm => (hmiddle m hm).2.1)
    rw [hsz, h2]
    simp only [List.length_append]
    omega
  obtain ⟨ftp2, h3, h4⟩ := receiveLoop_lines (statusCode first ++ " ".toList) last rest middle
    hlast hend (ftp1.reader.size + 1) ftp1 first hmiddle h2 hfuel
  refine ⟨(ftp2.ReadAndDiscard).1, ftp2.reader.buf, ?_, ?_⟩
  · unfold FTP.receive
    simp only [h1]
    rw [if_pos ⟨hlen, hdash⟩]
    unfold statusCode at h3
    simp only [h3]
  · rw [← h4]
    simp [FTP.ReadAndDiscard, Reader.stream]

/-- The example of the specification, as an instance of `receive_multiline`. -/
theorem receive_multiline_witness :
    ∃ ftp1 dropped,
      (session ["211-Features:\r\n MLST\r\n".toList, "211 End\r\n220 x\r\n".toList] []).receive
        = .ok (ftp1, "211-Features:\r\n".toList ++ [" MLST\r\n".toList].flatten
            ++ "211 End\r\n".toList, none)
      ∧ "220 x\r\n".toList = dropped ++ ftp1.reader.stream :=
  receive_multiline
    (session ["211-Features:\r\n MLST\r\n".toList, "211 End\r\n220 x\r\n".toList] [])
    "211-Features:\r\n".toList "211 End\r\n".toList "220 x\r\n".toList [" MLST\r\n".toList]
    (by decide) (by decide) (by decide) (by decide) (by decide) (by decide)

/-! ## `Pasv` -/

theorem split_snoc (sep : Char) (a b : Str) (h : sep ∉ b) :
    split sep (a ++ sep :: b) = split sep a ++ [b] := by
  induction a with
  | nil => simp [split, split_of_not_mem sep b h]
  | cons c cs ih =>
    rw [List.cons_append]
    by_cases hc : c = sep
    · simp [split, hc, ← ih]
    · rw [split, if_neg hc, ih]
      conv => rhs; rw [split, if_neg hc]
      cases hs : split sep cs with
      | nil => exact absurd hs (split_ne_nil sep cs)
      | cons x xs => rfl

theorem lastClose_none (b : Str) (h : ')' ∉ b) : lastClose b = none := by
  induction b with
  | nil => rfl
  | cons c cs ih =>
    simp only [List.mem_cons, not_or] at h
    have hc : c ≠ ')' := fun e => h.1 e.symm
    simp [lastClose, ih h.2, hc]

theorem lastClose_append (a b : Str) (h : ')' ∉ b) :
    lastClose (a ++ ')' :: b) = some a := by
  induction a with
  | nil => simp [lastClose, lastClose_none b h]
  | cons c cs ih => simp [lastClose, ih]

theorem takeWhile_line (a post : Str) (h : '\n' ∉ a) :
    (a ++ ')' :: post).takeWhile (fun x => x ≠ '\n')
      = a ++ ')' :: post.takeWhile (fun x => x ≠ '\n') := by
  rw [List.takeWhile_append_of_pos]
  · rw [List.takeWhile_cons_of_pos (by decide)]
  · intro x hx
    have : x ≠ '\n' := fun e => h (e ▸ hx)
    simpa using this

theorem firstGroup_paren (body post : Str) (hbody : '\n' ∉ body)
    (hpost : ')' ∉ post.takeWhile (fun x => x ≠ '\n')) :
    ∀ pre : Str, '\n' ∉ pre →
      ∃ x, firstGroup (pre ++ '(' :: (body ++ ')' :: post)) = some (x ++ body) := by
  intro pre
  induction pre with
  | nil =>
    intro _
    refine ⟨[], ?_⟩
    rw [List.nil_append, firstGroup, if_pos rfl, takeWhile_line body post hbody,
      lastClose_append _ _ hpost]
    rfl
  | cons c cs ih =>
    intro hpre
    simp only [List.mem_cons, not_or] at hpre
    by_cases hc : c = '('
    · refine ⟨cs ++ ['('], ?_⟩
      have hcs : '\n' ∉ cs ++ '(' :: body := by
        simp only [List.mem_append, List.mem_cons, not_or]
        exact ⟨hpre.2, by decide, hbody⟩
      have e : cs ++ '(' :: (body ++ ')' :: post) = (cs ++ '(' :: body) ++ ')' :: post := by
        simp
      rw [List.cons_append, firstGroup, if_pos hc, e, takeWhile_line _ post hcs,
        lastClose_append _ _ hpost]
      simp
    · obtain ⟨x, hx⟩ := ih hpre.2
      exact ⟨x, by rw [List.cons_append, firstGroup, if_neg hc, hx]⟩

theorem isDigit_ne (c d : Char) (hc : isDigit c = true) (hd : isDigit d = false) : d ≠ c := by
  intro e
  rw [e, hc] at hd
  cases hd

theorem not_mem_of_digits (d : Char) (hd : isDigit d = false) (ds : Str)
    (h : ds.all isDigit = true) : d ∉ ds := by
  intro hm
  have := List.all_eq_true.mp h d hm
  rw [this] at hd
  cases hd

theorem foldl_digits_le (ds : Str) (n : Nat) :
    n ≤ ds.foldl (fun n c => n * 10 + (c.toNat - '0'.toNat)) n := by
  induction ds generalizing n with
  | nil => simp
  | cons c cs ih =>
    rw [List.foldl_cons]
    have := ih (n * 10 + (c.toNat - '0'.toNat))
    omega

theorem parseUintLoop_value (ds : Str) (hds : ds.all isDigit = true) (n : Nat)
    (hle : ds.foldl (fun n c => n * 10 + (c.toNat - '0'.toNat)) n ≤ 255) :
    parseUintLoop ds n = .value (ds.foldl (fun n c => n * 10 + (c.toNat - '0'.toNat)) n) := by
  induction ds generalizing n with
  | nil => rfl
  | cons c cs ih =>
    rw [List.all_cons, Bool.and_eq_true] at hds
    rw [List.foldl_cons] at hle ⊢
    have h1 := foldl_digits_le cs (n * 10 + (c.toNat - '0'.toNat))
    have hn : n ≤ 255 := by omega
    have hdig : '0' ≤ c ∧ c ≤ '9' := by simpa [isDigit] using hds.1
    rw [parseUintLoop, if_neg (not_not.mpr hdig), if_neg (by norm_num; omega)]
    simp only []
    rw [if_neg (by norm_num; omega)]
    exact ih hds.2 _ hle

theorem Atoi_isByte (ds : Str) (h : isByte ds = true) : Atoi ds = ((numberValue ds : Int), none) := by
  simp only [isByte, Bool.and_eq_true, decide_eq_true_eq] at h
  obtain ⟨⟨hne, hall⟩, hval⟩ := h
  have hne1 : ds ≠ [] := by simpa using hne
  obtain ⟨c, cs, rfl⟩ := List.exists_cons_of_ne_nil hne1
  have hc : isDigit c = true := by
    rw [List.all_cons, Bool.and_eq_true] at hall
    exact hall.1
  have hplus : c ≠ '+' := (isDigit_ne c '+' hc (by decide)).symm
  have hminus : c ≠ '-' := (isDigit_ne c '-' hc (by decide)).symm
  have hloop : parseUintLoop (c :: cs) 0 = .value (numberValue (c :: cs)) :=
    parseUintLoop_value (c :: cs) hall 0 hval
  generalize numberValue (c :: cs) = v at hval hloop ⊢
  have hlt : ¬ (v ≥ 2 ^ 63) := by
    norm_num
    omega
  unfold Atoi
  simp only [List.head?_cons, Option.some.injEq, hplus, hminus, or_self, if_false,
    decide_False, hloop]
  rw [if_neg hne1, if_neg (fun h => hlt h.2), if_neg (fun h => Bool.false_ne_true h.1),
    if_neg Bool.false_ne_true]

theorem wrapInt_port (a b : Nat) (ha : a ≤ 255) (hb : b ≤ 255) :
    wrapInt (wrapInt ((a : Int) * 2 ^ 8) + (b : Int)) = ((a * 256 + b : Nat) : Int) := by
  unfold wrapInt
  push_cast
  omega

theorem isByte_digits (ds : Str) (h : isByte ds = true) : ds.all isDigit = true := by
  simp only [isByte, Bool.and_eq_true] at h
  exact h.1.2

theorem isByte_value (ds : Str) (h : isByte ds = true) : numberValue ds ≤ 255 := by
  simp only [isByte, Bool.and_eq_true, decide_eq_true_eq] at h
  exact h.2

theorem indexFromEnd_two (front : List Str) (a b : Str) :
    indexFromEnd (front ++ [a, b]) 2 = .ok a := by
  unfold indexFromEnd index
  have hl : (front ++ [a, b]).length = front.length + 2 := by simp
  have e : (front ++ [a, b]).length - 2 = front.length := by rw [hl]; omega
  rw [if_pos (by rw [hl]; omega), e, List.get?_eq_getElem?,
    List.getElem?_append_right (le_refl _)]
  simp

theorem indexFromEnd_one (front : List Str) (a b : Str) :
    indexFromEnd (front ++ [a, b]) 1 = .ok b := by
  unfold indexFromEnd index
  have hl : (front ++ [a, b]).length = front.length + 2 := by simp
  have e : (front ++ [a, b]).length - 1 = front.length + 1 := by rw [hl]; omega
  rw [if_pos (by rw [hl]; omega), e, List.get?_eq_getElem?,
    List.getElem?_append_right (Nat.le_succ _)]
  simp

/-- The counterexample to C5: a `)` after the tuple, on its line, goes into the
last field of the greedy capture, which then reads as 0. -/
theorem Pasv_misreads_with_later_paren :
    (session ["227 Entering Passive Mode (127,0,0,1,4,210) :)\r\n".toList] []).Pasv.result
        = .ok (1024, none) ∧
    (session ["227 Entering Passive Mode (127,0,0,1,4,210) :)\r\n".toList] []).Pasv.result
        ≠ .ok (4 * 256 + 210, none) := by
  decide

/-- C5, amended: when the response to `PASV` starts with `227` and holds, on its
first line, a tuple `(h1,h2,h3,h4,p1,p2)` of decimal numbers in 0..255 with no
`)` after the tuple on that line, `Pasv` returns the port `p1*256 + p2` and no
error. -/
theorem Pasv_decodes_port (ftp ftp1 ftp2 : FTP) (pre post h1 h2 h3 h4 p1 p2 : Str)
    (hsend : ftp.send "PASV".toList = (ftp1, none))
    (hrecv : ftp1.receive
      = .ok (ftp2, pre ++ '(' :: (tuple h1 h2 h3 h4 p1 p2 ++ ')' :: post), none))
    (h227 : HasPrefix (pre ++ '(' :: (tuple h1 h2 h3 h4 p1 p2 ++ ')' :: post)) "227".toList
      = true)
    (hh1 : isByte h1 = true) (hh2 : isByte h2 = true) (hh3 : isByte h3 = true)
    (hh4 : isByte h4 = true) (hp1 : isByte p1 = true) (hp2 : isByte p2 = true)
    (hpre : '\n' ∉ pre) (hpost : ')' ∉ post.takeWhile (fun x => x ≠ '\n')) :
    ftp.Pasv = .ok (ftp2, ((numberValue p1 * 256 + numberValue p2 : Nat) : Int), none) := by
  have nl := fun ds h => not_mem_of_digits '\n' (by decide) ds (isByte_digits ds h)
  have comma := fun ds h => not_mem_of_digits ',' (by decide) ds (isByte_digits ds h)
  have hbody : '\n' ∉ tuple h1 h2 h3 h4 p1 p2 := by
    simp [tuple, nl h1 hh1, nl h2 hh2, nl h3 hh3, nl h4 hh4, nl p1 hp1, nl p2 hp2]
  obtain ⟨x, hx⟩ := firstGroup_paren _ post hbody hpost pre hpre
  have hsplit : split ',' (x ++ tuple h1 h2 h3 h4 p1 p2)
      = split ',' (x ++ (h1 ++ ',' :: h2 ++ ',' :: h3 ++ ',' :: h4)) ++ [p1, p2] := by
    have e : x ++ tuple h1 h2 h3 h4 p1 p2
        = ((x ++ (h1 ++ ',' :: h2 ++ ',' :: h3 ++ ',' :: h4)) ++ ',' :: p1) ++ ',' :: p2 := by
      simp [tuple]
    rw [e, split_snoc _ _ _ (comma p2 hp2), split_snoc _ _ _ (comma p1 hp1)]
    simp
  unfold FTP.Pasv FTP.cmd
  rw [hsend]
  simp only [hrecv, h227, Bool.not_true, Bool.false_eq_true, if_false, hx, hsplit,
    indexFromEnd_two, indexFromEnd_one, Atoi_isByte p1 hp1, Atoi_isByte p2 hp2]
  rw [wrapInt_port _ _ (isByte_value p1 hp1) (isByte_value p2 hp2)]

/-- The example of the specification, as an instance of `Pasv_decodes_port`. -/
theorem Pasv_decodes_port_witness :
    (session ["227 Entering Passive Mode (127,0,0,1,4,210).\r\n".toList] []).Pasv
      = .ok ({ session [] [] with sent := ["PASV\r\n".toList] },
          ((numberValue "4".toList * 256 + numberValue "210".toList : Nat) : Int), none) :=
  Pasv_decodes_port (session ["227 Entering Passive Mode (127,0,0,1,4,210).\r\n".toList] [])
    { session ["227 Entering Passive Mode (127,0,0,1,4,210).\r\n".toList] [] with
      sent := ["PASV\r\n".toList] }
    { session [] [] with sent := ["PASV\r\n".toList] }
    "227 Entering Passive Mode ".toList ".\r\n".toList
    "127".toList "0".toList "0".toList "1".toList "4".toList "210".toList
    (by decide) (by decide) (by decide) (by decide) (by decide) (by decide) (by decide)
    (by decide) (by decide) (by decide) (by decide)

/-! ## `Walk` -/

/-- C3, at the failing input: below `/` the server lists the directories `a` and
`b`, each with one file; `Walk("/", walkFn, 1)` visits `/a/x` only, although
`/b/y` lies one level below the start as well. -/
theorem Walk_limit_spent_on_first_sibling :
    Walk twoDirs record 5 "/".toList (some 1) [] = .ok (["/a/x".toList], none) ∧
    files "/".toList twoDirsTree = ["/a/x".toList, "/b/y".toList] := by
  decide

/-- C6, at the failing inputs: without a parenthesized group in the response,
`Pasv` stops on an index out of range; with a group that is no tuple of numbers,
it returns port 0 and no error. -/
theorem Pasv_unguarded :
    (session ["227 Entering Passive Mode\r\n".toList] []).Pasv = .fault .indexOutOfRange ∧
    (session ["227 Entering Passive Mode (a,b)\r\n".toList] []).Pasv.result = .ok (0, none) := by
  decide

/-- C8, at the failing input: the server answers `230` to `USER` and `503` to
`PASS`; `Login` returns the `503` line as an error. -/
theorem Login_fails_after_230 :
    ((session ["230 Logged in\r\n".toList, "503 Already logged in\r\n".toList] []).Login
      "anonymous".toList "anonymous".toList).result
      = .ok (some (.new "503 Already logged in\r\n".toList)) := by
  decide

/-- C9, at the failing inputs: when the server answers `550` instead of `150`,
`Stor` and `Retr` return with the data connection they opened still open. -/
theorem transfer_leaves_data_open :
    openAfter ((session ["200 Type set\r\n".toList,
        "227 Entering Passive Mode (127,0,0,1,4,210).\r\n".toList, "550 Denied\r\n".toList]
        [.connected ⟨[], .eof, none, false⟩]).Stor "f".toList ⟨"abc".toList, none⟩) = .ok 1 ∧
    openAfter ((session ["200 Type set\r\n".toList,
        "227 Entering Passive Mode (127,0,0,1,4,210).\r\n".toList, "550 Denied\r\n".toList]
        [.connected ⟨[], .eof, none, false⟩]).Retr "f".toList (fun _ => none)) = .ok 1 := by
  decide

/-- C10, at the failing inputs: a response whose code does not parse and a read
error on the data connection both make `RawPassiveCmd` return -5. -/
theorem RawPassiveCmd_same_sentinel :
    ((session ["227 Entering Passive Mode (127,0,0,1,4,210).\r\n".toList, "abc\r\n".toList]
        [.connected ⟨[], .eof, none, false⟩]).RawPassiveCmd "MLSD /".toList).result
      = .ok (-5, []) ∧
    ((session ["227 Entering Passive Mode (127,0,0,1,4,210).\r\n".toList, "150 Here\r\n".toList]
        [.connected ⟨["a\r\n".toList], .net "reset".toList, none, false⟩]).RawPassiveCmd
        "MLSD /".toList).result
      = .ok (-5, []) := by
  decide

end Goftp
